import Mathlib

/-!
Shallow embedding of the StockScreener engine (the `ApiService` class:
cache, indicator engine, symbol aggregator, screening orchestrator and
scoring rule), together with theorems checking the natural-language
specification against it.

Numbers are modelled as rationals (`ℚ`); optional (possibly `undefined`)
fields of the TypeScript interfaces are modelled as `Option ℚ`; an
`ApiResponse<T>` (success with data / failure with message) is modelled as
`Except String T`.
-/

namespace StockScreener

/-- A daily bar of `PriceHistory` (date, open, high, low, close, volume).
`open` is a Lean keyword, hence the field name `openPrice`. -/
structure PriceBar where
  date : String
  openPrice : ℚ
  high : ℚ
  low : ℚ
  close : ℚ
  volume : ℚ
  deriving DecidableEq, Repr

/-- The `Stock` quote record built by `getStockQuote`.  All numeric fields
are optional in the TypeScript interface. -/
structure Stock where
  symbol : String
  company_name : String
  current_price : Option ℚ
  price_change : Option ℚ
  price_change_percent : Option ℚ
  volume : Option ℚ
  high_52w : Option ℚ
  low_52w : Option ℚ
  deriving DecidableEq, Repr

/-- `StockFundamentals` as built by `getStockFundamentals`; every field is
optional (may be `undefined`). -/
structure StockFundamentals where
  market_cap : Option ℚ
  pe_ratio : Option ℚ
  price_to_book : Option ℚ
  eps : Option ℚ
  dividend_yield : Option ℚ
  beta : Option ℚ
  quarterly_revenue_growth : Option ℚ
  quarterly_eps_growth : Option ℚ
  estimated_sales_growth : Option ℚ
  estimated_eps_growth : Option ℚ
  deriving DecidableEq, Repr

/-- The `screening_result` record constructed inside `screenStocks`
(exactly the fields the code assigns). -/
structure ScreeningResult where
  price_above_sma200 : Bool
  sma50_above_sma200 : Bool
  sma100_above_sma200 : Bool
  current_price : ℚ
  sma50 : ℚ
  sma100 : ℚ
  sma200 : ℚ
  passes_all_criteria : Bool
  meets_all_criteria : Bool
  score : ℚ
  deriving DecidableEq, Repr

/-- `StockWithScreening extends Stock` with optional fundamentals, price
history and screening result — the spec's `EnrichedStock`. -/
structure StockWithScreening extends Stock where
  fundamentals : Option StockFundamentals
  price_history : Option (List PriceBar)
  screening_result : Option ScreeningResult
  deriving DecidableEq, Repr

/-- `ChartData` returned by `getChartData`. -/
structure ChartData where
  dates : List String
  prices : List ℚ
  sma50 : List ℚ
  sma100 : List ℚ
  sma200 : List ℚ
  deriving DecidableEq, Repr

/-! ### Result Cache -/

/-- `CACHE_DURATION = 5 * 60 * 1000` milliseconds. -/
def CACHE_DURATION : ℤ := 5 * 60 * 1000

/-- A cache entry as serialized by `setCachedData`: `{ data, timestamp }`.
Timestamps are integer milliseconds (`Date.now()`). -/
structure CacheEntry (α : Type) where
  data : α
  timestamp : ℤ
  deriving DecidableEq, Repr

/-- `setCachedData` stores the payload with the current time as its
insertion timestamp. -/
def setCachedData (now : ℤ) (d : α) : CacheEntry α :=
  { data := d, timestamp := now }

/-- `getCachedData`: given the current time and the (possibly absent)
stored entry for a key, return the payload if
`Date.now() - timestamp < CACHE_DURATION`, otherwise `null` (a miss). -/
def getCachedData (now : ℤ) (cached : Option (CacheEntry α)) : Option α :=
  match cached with
  | some entry => if now - entry.timestamp < CACHE_DURATION then some entry.data else none
  | none => none

/-! ### Indicator Engine -/

/-- `calculateSMA(prices, period)`.  The source loop runs
`for (i = period - 1; i < prices.length; i++)` and pushes the mean of
`prices.slice(i - period + 1, i + 1)`.  Re-indexing with `j = i - period + 1`
(the window start), the pushed value is the mean of
`prices.slice(j, j + period) = (prices.drop j).take period`, and `j` ranges
over `0 .. prices.length - period`, i.e. over
`List.range (prices.length + 1 - period)` (empty when the series is shorter
than the period, exactly as the loop body never runs then). -/
def calculateSMA (prices : List ℚ) (period : ℕ) : List ℚ :=
  (List.range (prices.length + 1 - period)).map
    (fun j => ((prices.drop j).take period).sum / (period : ℚ))

/-! ### Scoring Rule -/

/-- `calculateScore(stock)`: sequential `score += term` accumulation with
JavaScript truthiness guards (`if (x && x > 0)`: an absent field or a zero
value is falsy and skips the term), finishing with `Math.max(0, score)`. -/
def calculateScore (stock : StockWithScreening) : ℚ :=
  let score : ℚ := 0
  -- Price momentum (20% weight)
  let score := score +
    (match stock.price_change_percent with
     | some pcp => if pcp ≠ 0 ∧ 0 < pcp then pcp * (2/10) else 0
     | none => 0)
  -- Volume (10% weight)
  let score := score +
    (match stock.volume with
     | some v => if v ≠ 0 ∧ 1000000 < v then 10 else 0
     | none => 0)
  -- PE ratio (20% weight)
  let score := score +
    (match stock.fundamentals.bind (·.pe_ratio) with
     | some pe => if pe ≠ 0 then (if 0 < pe ∧ pe < 25 then (25 - pe) * 2 else 0) else 0
     | none => 0)
  -- Growth metrics (30% weight)
  let score := score +
    (match stock.fundamentals.bind (·.quarterly_revenue_growth) with
     | some g => if g ≠ 0 ∧ 0 < g then g * (3/10) else 0
     | none => 0)
  let score := score +
    (match stock.fundamentals.bind (·.quarterly_eps_growth) with
     | some g => if g ≠ 0 ∧ 0 < g then g * (3/10) else 0
     | none => 0)
  -- Market cap preference (20% weight)
  let score := score +
    (match stock.fundamentals.bind (·.market_cap) with
     | some mc =>
        if mc ≠ 0 then
          (if 10000000000 < mc then 20 else if 2000000000 < mc then 10 else 0)
        else 0
     | none => 0)
  max 0 score

/-! ### Symbol Aggregator -/

/-- The Market Data Gateway as seen by the aggregator: the per-symbol
outcomes of the quote, fundamentals and time-series sub-calls
(each an `ApiResponse`, i.e. success with data or failure with message). -/
structure Gateway where
  quote : String → Except String Stock
  fundamentals : String → Except String StockFundamentals
  timeSeries : String → Except String (List PriceBar)

/-- `getStockDetails(symbol)`: issues the three sub-calls concurrently
(`Promise.all`); if the quote succeeded, returns the quote spread into a
`StockWithScreening` with `fundamentals` and `price_history` set to the
respective responses' `data` (absent when that sub-call failed);
otherwise returns the failed quote response itself. -/
def getStockDetails (gw : Gateway) (symbol : String) : Except String StockWithScreening :=
  match gw.quote symbol with
  | .ok q =>
      .ok { toStock := q,
            fundamentals := (gw.fundamentals symbol).toOption,
            price_history := (gw.timeSeries symbol).toOption,
            screening_result := none }
  | .error e => .error e

/-! ### Screening Orchestrator -/

/-- The hard-coded symbol universe of `screenStocks`. -/
def symbols : List String :=
  ["AAPL", "MSFT", "GOOGL", "AMZN", "TSLA", "META", "NVDA", "NFLX",
   "CRM", "ADBE", "ORCL", "IBM", "INTC", "AMD", "QCOM", "AVGO",
   "JPM", "BAC", "GS", "MS", "WFC", "C", "AXP", "V", "MA", "PYPL"]

/-- JavaScript `a > b` where either side may be `undefined`
(a comparison involving `undefined` is `false`). -/
def optGt (a b : Option ℚ) : Bool :=
  match a, b with
  | some x, some y => decide (y < x)
  | _, _ => false

/-- The screening criteria conjunction of `screenStocks`, on the current
price and the last element of each SMA series:
`currentPrice > sma200[last] && sma50[last] > sma200[last] &&
sma100[last] > sma200[last]`. -/
def meetsScreeningCriteria (currentPrice : ℚ) (sma50l sma100l sma200l : Option ℚ) : Bool :=
  optGt (some currentPrice) sma200l && optGt sma50l sma200l && optGt sma100l sma200l

/-- The `screening_result` record that `screenStocks` assigns to a
passing stock (`prices`, `sma50/100/200` and `currentPrice` are the local
consts of the loop body; `currentPrice` is `stock.current_price || 0` and
the three series are nonempty when the history has ≥ 200 bars, so
`getLast?.getD 0` is the source's `sma[sma.length - 1]`). -/
def screeningResultFor (stock : StockWithScreening) (ph : List PriceBar) : ScreeningResult :=
  let prices := ph.map (·.close)
  let sma200 := calculateSMA prices 200
  let sma50 := calculateSMA prices 50
  let sma100 := calculateSMA prices 100
  let currentPrice := stock.current_price.getD 0
  { price_above_sma200 := optGt (some currentPrice) sma200.getLast?,
    sma50_above_sma200 := optGt sma50.getLast? sma200.getLast?,
    sma100_above_sma200 := optGt sma100.getLast? sma200.getLast?,
    current_price := currentPrice,
    sma50 := sma50.getLast?.getD 0,
    sma100 := sma100.getLast?.getD 0,
    sma200 := sma200.getLast?.getD 0,
    passes_all_criteria := true,
    meets_all_criteria := true,
    score := calculateScore stock }

/-- The body of the `results.forEach` loop in `screenStocks` for one
fulfilled, successful aggregation: if the stock has at least 200 bars of
history and meets the three SMA criteria (evaluated on the local consts
`currentPrice = stock.current_price || 0` and the last elements of the
three SMA series over `prices = price_history.map(p => p.close)`), attach
a `screening_result` and push the stock; otherwise the stock is dropped
(and its `screening_result` stays absent). -/
def processStock (stock : StockWithScreening) : Option StockWithScreening :=
  match stock.price_history with
  | some ph =>
      if 200 ≤ ph.length then
        if meetsScreeningCriteria (stock.current_price.getD 0)
            ((calculateSMA (ph.map (·.close)) 50).getLast?)
            ((calculateSMA (ph.map (·.close)) 100).getLast?)
            ((calculateSMA (ph.map (·.close)) 200).getLast?) then
          some { stock with screening_result := some (screeningResultFor stock ph) }
        else none
      else none
  | none => none

/-- One settled element of `Promise.allSettled(stockPromises)` fed through
the `forEach` guard `result.status === 'fulfilled' && result.value.success
&& result.value.data`: a rejected promise or failed response contributes
nothing. -/
def processOutcome (r : Except String StockWithScreening) : Option StockWithScreening :=
  match r with
  | .ok s => processStock s
  | .error _ => none

/-- `b.screening_result?.score || 0`, the sort key of `screenStocks`. -/
def screeningScore (s : StockWithScreening) : ℚ :=
  (s.screening_result.map (·.score)).getD 0

/-- Insert into a list sorted by score descending, after every element of
score ≥ the new one (the placement a stable sort gives). -/
def insertByScoreDesc (x : StockWithScreening) :
    List StockWithScreening → List StockWithScreening
  | [] => [x]
  | y :: ys =>
      if screeningScore x ≤ screeningScore y then y :: insertByScoreDesc x ys
      else x :: y :: ys

/-- `stocks.sort((a, b) => (b.screening_result?.score || 0) -
(a.screening_result?.score || 0))`: ECMAScript `Array.prototype.sort` is a
stable sort, and with this comparator it orders by score descending;
modelled as a stable insertion sort. -/
def sortByScoreDesc (l : List StockWithScreening) : List StockWithScreening :=
  l.foldl (fun acc x => insertByScoreDesc x acc) []

/-- The list of stocks accumulated by `screenStocks` before sorting:
`getStockDetails` over the first 10 symbols of the hard-coded universe,
each settled outcome filtered through the screening criteria. -/
def stocksOf (gw : Gateway) : List StockWithScreening :=
  ((symbols.take 10).map (getStockDetails gw)).filterMap processOutcome

/-- The ranked list `screenStocks` returns on its success path. -/
def screenStocksList (gw : Gateway) : List StockWithScreening :=
  sortByScoreDesc (stocksOf gw)

/-- `screenStocks()` in full.  The `catch` branch of the source cannot
fire: `Promise.allSettled` never rejects and the loop body, the sort and
the pure computations never throw, so the result is always the success
response carrying the ranked list. -/
def screenStocks (gw : Gateway) : Except String (List StockWithScreening) :=
  .ok (screenStocksList gw)

/-! ### Chart path -/

/-- `getChartData(symbol)` given the outcome of its time-series sub-call.
In the source, `dates.reverse()` and `prices.reverse()` mutate the two
arrays in place while the `ChartData` object literal is evaluated field by
field, so the three `calculateSMA` calls (evaluated after the `prices`
field) see the already-reversed `prices` array; the model passes
`prices.reverse` to them explicitly. -/
def getChartData (ts : Except String (List PriceBar)) : Except String ChartData :=
  match ts with
  | .ok priceHistory =>
      let prices := priceHistory.map (·.close)
      let dates := priceHistory.map (·.date)
      .ok { dates := dates.reverse,
            prices := prices.reverse,
            sma50 := calculateSMA prices.reverse 50,
            sma100 := calculateSMA prices.reverse 100,
            sma200 := calculateSMA prices.reverse 200 }
  | .error _ => .error "Failed to get chart data"

/-! ### Spec-side scoring (for the refinement comparison)

`specScore` follows the words of the spec's Scoring Rule (§4.4): the plain
sum of the conditionally applied terms, each term keyed only on the
documented threshold (no truthiness guard), with an absent field
contributing 0. -/

/-- The spec's scoring rule, written from the spec's words: sum of
momentum, liquidity, valuation, the two growth terms and the scale
preference. -/
def specScore (st : StockWithScreening) : ℚ :=
  (match st.price_change_percent with
   | some pcp => if 0 < pcp then pcp * (2/10) else 0
   | none => 0)
  + (match st.volume with
     | some v => if 1000000 < v then (10:ℚ) else 0
     | none => 0)
  + (match st.fundamentals.bind (·.pe_ratio) with
     | some pe => if 0 < pe ∧ pe < 25 then (25 - pe) * 2 else 0
     | none => 0)
  + (match st.fundamentals.bind (·.quarterly_revenue_growth) with
     | some g => if 0 < g then g * (3/10) else 0
     | none => 0)
  + (match st.fundamentals.bind (·.quarterly_eps_growth) with
     | some g => if 0 < g then g * (3/10) else 0
     | none => 0)
  + (match st.fundamentals.bind (·.market_cap) with
     | some mc => if 10000000000 < mc then (20:ℚ) else if 2000000000 < mc then 10 else 0
     | none => 0)

/-! ### Concrete inputs used by witnesses and counterexamples -/

/-- A daily bar whose prices all equal `c`. -/
def barOf (c : ℚ) : PriceBar :=
  { date := "d", openPrice := c, high := c, low := c, close := c, volume := 0 }

/-- A fundamentals record with every field absent. -/
def emptyFundamentals : StockFundamentals :=
  { market_cap := none, pe_ratio := none, price_to_book := none,
    eps := none, dividend_yield := none, beta := none,
    quarterly_revenue_growth := none, quarterly_eps_growth := none,
    estimated_sales_growth := none, estimated_eps_growth := none }

/-- An `EnrichedStock` with every optional field absent. -/
def emptyStock : StockWithScreening :=
  { symbol := "EMPTY", company_name := "", current_price := none,
    price_change := none, price_change_percent := none, volume := none,
    high_52w := none, low_52w := none,
    fundamentals := none, price_history := none, screening_result := none }

/-- 200 chronologically ascending bars: 100 old bars at 100 followed by
100 recent bars at 200 (a stock that doubled). -/
def risingHist : List PriceBar :=
  List.replicate 100 (barOf 100) ++ List.replicate 100 (barOf 200)

/-- The same 200 bars as the upstream delivers them: most recent first
(100 bars at 200 followed by the 100 older bars at 100). -/
def descHist : List PriceBar :=
  List.replicate 100 (barOf 200) ++ List.replicate 100 (barOf 100)

/-- 200 bars of constant price 100. -/
def flatHist : List PriceBar := List.replicate 200 (barOf 100)

/-- Fundamentals giving a score of exactly 30: market cap above 10B
(+20); the stock's volume term adds the other +10. -/
def fund30 : StockFundamentals :=
  { emptyFundamentals with market_cap := some 20000000000 }

/-- Fundamentals giving a score of exactly 12.5: P/E = 18.75, so
`(25 − 18.75) × 2 = 12.5`. -/
def fund125 : StockFundamentals :=
  { emptyFundamentals with pe_ratio := some (75/4) }

/-- Quote for the score-12.5 symbol. -/
def quote125 : Stock :=
  { symbol := "AAPL", company_name := "Apple", current_price := some 300,
    price_change := none, price_change_percent := none, volume := none,
    high_52w := none, low_52w := none }

/-- Quote for the score-30 symbol (volume above 1,000,000 adds +10). -/
def quote30 : Stock :=
  { symbol := "MSFT", company_name := "Microsoft", current_price := some 300,
    price_change := none, price_change_percent := none, volume := some 2000000,
    high_52w := none, low_52w := none }

/-- The aggregated stock for `quote30` over `risingHist`. -/
def stock30 : StockWithScreening :=
  { toStock := quote30, fundamentals := some fund30,
    price_history := some risingHist, screening_result := none }

/-- The aggregated stock for `quote125` over `risingHist`. -/
def stock125 : StockWithScreening :=
  { toStock := quote125, fundamentals := some fund125,
    price_history := some risingHist, screening_result := none }

/-- A gateway where exactly `AAPL` (score 12.5) and `MSFT` (score 30)
aggregate successfully and pass screening; every other symbol's calls
fail. -/
def gw8 : Gateway :=
  { quote := fun s =>
      if s = "AAPL" then .ok quote125 else if s = "MSFT" then .ok quote30
      else .error "down",
    fundamentals := fun s =>
      if s = "AAPL" then .ok fund125 else if s = "MSFT" then .ok fund30
      else .error "down",
    timeSeries := fun s =>
      if s = "AAPL" ∨ s = "MSFT" then .ok risingHist else .error "down" }

/-- A gateway on which every upstream call fails. -/
def gwAllFail : Gateway :=
  { quote := fun _ => .error "network down",
    fundamentals := fun _ => .error "network down",
    timeSeries := fun _ => .error "network down" }

/-- Quote whose current price equals the flat history's price. -/
def quoteFlat : Stock :=
  { symbol := "AAPL", company_name := "Apple", current_price := some 100,
    price_change := none, price_change_percent := none, volume := none,
    high_52w := none, low_52w := none }

/-- The aggregated stock over `flatHist`: 200 bars of history, yet the
screening comparisons are all strict and fail (100 > 100 is false). -/
def flatStock : StockWithScreening :=
  { toStock := quoteFlat, fundamentals := none,
    price_history := some flatHist, screening_result := none }

/-- A gateway serving `flatStock`'s data for every symbol. -/
def gwFlat : Gateway :=
  { quote := fun _ => .ok quoteFlat,
    fundamentals := fun _ => .error "down",
    timeSeries := fun _ => .ok flatHist }

/-- Quote for the ordering counterexample, priced above every SMA. -/
def quoteDesc : Stock :=
  { symbol := "AAPL", company_name := "Apple", current_price := some 300,
    price_change := none, price_change_percent := none, volume := none,
    high_52w := none, low_52w := none }

/-- The rising stock exactly as `screenStocks` sees it: history in the
upstream's most-recent-first order, never reversed. -/
def descStock : StockWithScreening :=
  { toStock := quoteDesc, fundamentals := none,
    price_history := some descHist, screening_result := none }

/-- The same stock with its history normalized to chronologically
ascending order (what the spec says the engine computes SMAs on). -/
def ascStock : StockWithScreening :=
  { descStock with price_history := some descHist.reverse }

/-- A gateway delivering the rising stock's history most-recent-first for
every symbol. -/
def gwDesc : Gateway :=
  { quote := fun _ => .ok quoteDesc,
    fundamentals := fun _ => .error "down",
    timeSeries := fun _ => .ok descHist }

/-- `gw8` with a different failure for `GOOGL` (still a failure): used to
show one symbol's failure details do not affect the batch result. -/
def gw8b : Gateway :=
  { gw8 with quote := fun s => if s = "GOOGL" then .error "timeout" else gw8.quote s }

/-- `gw8` with a changed outcome for `JPM`, a symbol outside the screened
first ten: used to show the remaining 16 symbols are never consulted. -/
def gw8jpm : Gateway :=
  { gw8 with quote := fun s => if s = "JPM" then .ok quote30 else gw8.quote s }

/-- The screening result `screenStocks` attaches to `stock30`. -/
def screened30 : ScreeningResult :=
  { price_above_sma200 := true, sma50_above_sma200 := true,
    sma100_above_sma200 := true, current_price := 300,
    sma50 := 200, sma100 := 200, sma200 := 150,
    passes_all_criteria := true, meets_all_criteria := true, score := 30 }

/-- `stock30` as it appears in the ranked output. -/
def processedStock30 : StockWithScreening :=
  { stock30 with screening_result := some screened30 }

/-! ## Theorems -/

set_option maxRecDepth 40000

/-- C2: `calculateSMA` returns `[]` on series shorter than the period;
on `n ≥ p ≥ 1` it returns `n − p + 1` values, the `i`-th being the
arithmetic mean of the `p`-element window `s[i .. i+p−1]`, the last being
the mean of the last `p` observations; `[1,2,3,4,5]` with period 3 gives
`[2,3,4]`.  Totality is inherent in the function being defined. -/
theorem c2_sma_spec :
    (∀ (s : List ℚ) (p : ℕ), s.length < p → calculateSMA s p = []) ∧
    (∀ (s : List ℚ) (p : ℕ), 1 ≤ p → p ≤ s.length →
      (calculateSMA s p).length = s.length - p + 1 ∧
      (∀ i, i < s.length - p + 1 →
        ((s.drop i).take p).length = p ∧
        (calculateSMA s p).get? i = some (((s.drop i).take p).sum / (p : ℚ))) ∧
      (calculateSMA s p).getLast? =
        some ((s.drop (s.length - p)).sum / (p : ℚ))) ∧
    calculateSMA [1, 2, 3, 4, 5] 3 = [2, 3, 4] := by
  refine ⟨fun s p h => ?_, fun s p hp hpn => ?_, by with_unfolding_all rfl⟩
  · have h0 : s.length + 1 - p = 0 := by omega
    simp [calculateSMA, h0]
  · have hlen : (calculateSMA s p).length = s.length + 1 - p := by
      simp [calculateSMA]
    have hget : ∀ i, i < s.length + 1 - p →
        (calculateSMA s p).get? i = some (((s.drop i).take p).sum / (p : ℚ)) := by
      intro i hi
      simp only [calculateSMA, List.get?_map, List.get?_range hi, Option.map_some']
    refine ⟨by omega, fun i hi => ⟨?_, hget i (by omega)⟩, ?_⟩
    · simp only [List.length_take, List.length_drop]
      exact Nat.min_eq_left (by omega)
    · have h1 : s.length + 1 - p = (s.length - p) + 1 := by omega
      have h2 : calculateSMA s p =
          (List.range ((s.length - p) + 1)).map
            (fun j => ((s.drop j).take p).sum / (p : ℚ)) := by
        rw [calculateSMA, h1]
      have htake : (s.drop (s.length - p)).take p = s.drop (s.length - p) := by
        apply List.take_of_length_le
        rw [List.length_drop]
        omega
      rw [h2, List.range_succ, List.map_append, List.map_singleton,
        List.getLast?_concat, htake]

/-- C2 witness: the general statements applied to the concrete series
`[1,2]` (shorter than the period) and `[1,2,3,4,5]` with period 3. -/
theorem c2_sma_spec_witness :
    calculateSMA [1, 2] 3 = [] ∧
    (calculateSMA [1, 2, 3, 4, 5] 3).length = 5 - 3 + 1 := by
  refine ⟨c2_sma_spec.1 [1, 2] 3 (by decide), (c2_sma_spec.2.1 [1, 2, 3, 4, 5] 3 (by decide) (by decide)).1⟩

/-- C9: a value stored at time `T` is returned by a read strictly before
`T + TTL` (TTL = 5 minutes = 300000 ms), and a read at or after `T + TTL`
is a miss, under the rule `now − insertion_timestamp < TTL`; in
particular reads at `T + TTL − 1` hit and at `T + TTL + 1` (or exactly
`T + TTL`) miss. -/
theorem c9_cache_ttl :
    CACHE_DURATION = 300000 ∧
    (∀ (α : Type) (T now : ℤ) (d : α), now - T < CACHE_DURATION →
      getCachedData now (some (setCachedData T d)) = some d) ∧
    (∀ (α : Type) (T now : ℤ) (d : α), CACHE_DURATION ≤ now - T →
      getCachedData now (some (setCachedData T d)) = none) ∧
    (∀ (α : Type) (T : ℤ) (d : α),
      getCachedData (T + CACHE_DURATION - 1) (some (setCachedData T d)) = some d ∧
      getCachedData (T + CACHE_DURATION) (some (setCachedData T d)) = none ∧
      getCachedData (T + CACHE_DURATION + 1) (some (setCachedData T d)) = none) := by
  refine ⟨by norm_num [CACHE_DURATION], ?_, ?_, ?_⟩
  · intro α T now d h
    simp [getCachedData, setCachedData, h]
  · intro α T now d h
    simp [getCachedData, setCachedData]
    omega
  · intro α T d
    refine ⟨?_, ?_, ?_⟩ <;> simp [getCachedData, setCachedData, CACHE_DURATION] <;> omega

/-- C9 witness: the conditional parts applied at `T = 0`,
`now = 299999` (a hit) and `now = 300000` (a miss), payload `1 : ℚ`. -/
theorem c9_cache_ttl_witness :
    getCachedData 299999 (some (setCachedData 0 (1 : ℚ))) = some 1 ∧
    getCachedData 300000 (some (setCachedData 0 (1 : ℚ))) = none := by
  refine ⟨c9_cache_ttl.2.1 ℚ 0 299999 1 (by norm_num [CACHE_DURATION]),
          c9_cache_ttl.2.2.1 ℚ 0 300000 1 (by norm_num [CACHE_DURATION])⟩

/-- C5: `getStockDetails` fails iff the quote sub-call fails (and
propagates its message); when the quote succeeds it returns an
`EnrichedStock` whose `fundamentals` and `price_history` fields are
present exactly when the corresponding sub-call succeeded (each carrying
that sub-call's data), regardless of the other calls' outcomes. -/
theorem c5_quote_load_bearing :
    (∀ (gw : Gateway) (sym : String) (e : String),
      gw.quote sym = .error e → getStockDetails gw sym = .error e) ∧
    (∀ (gw : Gateway) (sym : String) (q : Stock),
      gw.quote sym = .ok q →
      ∃ st, getStockDetails gw sym = .ok st ∧ st.toStock = q ∧
        st.screening_result = none ∧
        st.fundamentals = (gw.fundamentals sym).toOption ∧
        st.price_history = (gw.timeSeries sym).toOption ∧
        (st.fundamentals.isSome = true ↔ ∃ f, gw.fundamentals sym = .ok f) ∧
        (st.price_history.isSome = true ↔ ∃ h, gw.timeSeries sym = .ok h)) ∧
    (∀ (gw : Gateway) (sym : String),
      (∃ st, getStockDetails gw sym = .ok st) ↔ (∃ q, gw.quote sym = .ok q)) := by
  have htoOpt : ∀ (β : Type) (r : Except String β),
      r.toOption.isSome = true ↔ ∃ b, r = .ok b := by
    intro β r
    cases r <;> simp [Except.toOption]
  refine ⟨?_, ?_, ?_⟩
  · intro gw sym e h
    simp [getStockDetails, h]
  · intro gw sym q h
    refine ⟨{ toStock := q, fundamentals := (gw.fundamentals sym).toOption,
              price_history := (gw.timeSeries sym).toOption,
              screening_result := none },
      by simp [getStockDetails, h], rfl, rfl, rfl, rfl,
      htoOpt _ (gw.fundamentals sym), htoOpt _ (gw.timeSeries sym)⟩
  · intro gw sym
    cases h : gw.quote sym with
    | ok q => simp [getStockDetails, h]
    | error e => simp [getStockDetails, h]

/-- C5 witness: on `gw8`, `AAPL`'s quote succeeds and its details carry
both optional fields; on `gwAllFail` the quote failure propagates. -/
theorem c5_quote_load_bearing_witness :
    (∃ st, getStockDetails gw8 "AAPL" = .ok st ∧ st.toStock = quote125 ∧
      st.screening_result = none ∧
      st.fundamentals = (gw8.fundamentals "AAPL").toOption ∧
      st.price_history = (gw8.timeSeries "AAPL").toOption ∧
      (st.fundamentals.isSome = true ↔ ∃ f, gw8.fundamentals "AAPL" = .ok f) ∧
      (st.price_history.isSome = true ↔ ∃ h, gw8.timeSeries "AAPL" = .ok h)) ∧
    getStockDetails gwAllFail "AAPL" = .error "network down" := by
  exact ⟨c5_quote_load_bearing.2.1 gw8 "AAPL" quote125 (by with_unfolding_all rfl),
         c5_quote_load_bearing.1 gwAllFail "AAPL" "network down" rfl⟩

/-! ### Lemmas about the stable descending sort -/

theorem mem_insertByScoreDesc {x a : StockWithScreening} :
    ∀ {l : List StockWithScreening}, a ∈ insertByScoreDesc x l ↔ a = x ∨ a ∈ l := by
  intro l
  induction l with
  | nil => simp [insertByScoreDesc]
  | cons y ys ih =>
    simp only [insertByScoreDesc]
    split_ifs with h
    · simp only [List.mem_cons, ih]
      tauto
    · simp [List.mem_cons]

theorem insertByScoreDesc_perm (x : StockWithScreening) :
    ∀ (l : List StockWithScreening), (insertByScoreDesc x l).Perm (x :: l) := by
  intro l
  induction l with
  | nil => exact List.Perm.refl _
  | cons y ys ih =>
    simp only [insertByScoreDesc]
    split_ifs with h
    · exact (ih.cons y).trans (List.Perm.swap x y ys)
    · exact List.Perm.refl _

theorem sortByScoreDesc_perm (l : List StockWithScreening) :
    (sortByScoreDesc l).Perm l := by
  have key : ∀ (l acc : List StockWithScreening),
      (l.foldl (fun acc x => insertByScoreDesc x acc) acc).Perm (acc ++ l) := by
    intro l
    induction l with
    | nil => intro acc; simp
    | cons x xs ih =>
      intro acc
      refine ((ih (insertByScoreDesc x acc)).trans ?_)
      refine (((insertByScoreDesc_perm x acc).append_right xs).trans ?_)
      exact List.perm_middle.symm
  simpa using key l []

theorem pairwise_insertByScoreDesc {x : StockWithScreening}
    {l : List StockWithScreening}
    (h : l.Pairwise (fun a b => screeningScore b ≤ screeningScore a)) :
    (insertByScoreDesc x l).Pairwise (fun a b => screeningScore b ≤ screeningScore a) := by
  induction l with
  | nil => simp [insertByScoreDesc]
  | cons y ys ih =>
    rw [List.pairwise_cons] at h
    obtain ⟨hy, hys⟩ := h
    simp only [insertByScoreDesc]
    split_ifs with hxy
    · rw [List.pairwise_cons]
      refine ⟨fun z hz => ?_, ih hys⟩
      rcases mem_insertByScoreDesc.1 hz with rfl | hz'
      · exact hxy
      · exact hy z hz'
    · rw [List.pairwise_cons]
      refine ⟨fun z hz => ?_, List.pairwise_cons.2 ⟨hy, hys⟩⟩
      rcases List.mem_cons.1 hz with rfl | hz'
      · exact le_of_lt (not_le.mp hxy)
      · exact le_trans (hy z hz') (le_of_lt (not_le.mp hxy))

theorem sortByScoreDesc_sorted (l : List StockWithScreening) :
    (sortByScoreDesc l).Pairwise (fun a b => screeningScore b ≤ screeningScore a) := by
  have key : ∀ (l acc : List StockWithScreening),
      acc.Pairwise (fun a b => screeningScore b ≤ screeningScore a) →
      (l.foldl (fun acc x => insertByScoreDesc x acc) acc).Pairwise
        (fun a b => screeningScore b ≤ screeningScore a) := by
    intro l
    induction l with
    | nil => intro acc hacc; simpa using hacc
    | cons x xs ih =>
      intro acc hacc
      exact ih _ (pairwise_insertByScoreDesc hacc)
  exact key l [] (by simp)

theorem filter_insertByScoreDesc (c : ℚ) {x : StockWithScreening}
    {l : List StockWithScreening}
    (h : l.Pairwise (fun a b => screeningScore b ≤ screeningScore a)) :
    (insertByScoreDesc x l).filter (fun s => decide (screeningScore s = c)) =
      l.filter (fun s => decide (screeningScore s = c)) ++
        (if screeningScore x = c then [x] else []) := by
  induction l with
  | nil =>
    simp only [insertByScoreDesc, List.filter_nil, List.nil_append]
    by_cases hx : screeningScore x = c
    · simp [List.filter, hx]
    · simp [List.filter, hx]
  | cons y ys ih =>
    rw [List.pairwise_cons] at h
    obtain ⟨hy, hys⟩ := h
    simp only [insertByScoreDesc]
    by_cases hxy : screeningScore x ≤ screeningScore y
    · rw [if_pos hxy, List.filter_cons, List.filter_cons]
      by_cases hyc : screeningScore y = c
      · rw [if_pos (by simpa using hyc), if_pos (by simpa using hyc),
          ih hys, List.cons_append]
      · rw [if_neg (by simpa using hyc), if_neg (by simpa using hyc), ih hys]
    · rw [if_neg hxy]
      have hylt : screeningScore y < screeningScore x := not_le.mp hxy
      by_cases hxc : screeningScore x = c
      · have hnil : (y :: ys).filter (fun s => decide (screeningScore s = c)) = [] := by
          rw [List.filter_eq_nil]
          intro a ha
          simp only [decide_eq_true_eq]
          intro hac
          have hay : screeningScore a ≤ screeningScore y := by
            rcases List.mem_cons.1 ha with rfl | ha'
            · exact le_refl _
            · exact hy a ha'
          rw [hac, ← hxc] at hay
          exact absurd (lt_of_lt_of_le hylt hay) (lt_irrefl _)
        rw [List.filter_cons, if_pos (by simpa using hxc), hnil, if_pos hxc]
        rfl
      · rw [List.filter_cons, if_neg (by simpa using hxc), if_neg hxc,
          List.append_nil]

theorem filter_sortByScoreDesc (c : ℚ) (l : List StockWithScreening) :
    (sortByScoreDesc l).filter (fun s => decide (screeningScore s = c)) =
      l.filter (fun s => decide (screeningScore s = c)) := by
  have key : ∀ (l acc : List StockWithScreening),
      acc.Pairwise (fun a b => screeningScore b ≤ screeningScore a) →
      (l.foldl (fun acc x => insertByScoreDesc x acc) acc).filter
          (fun s => decide (screeningScore s = c)) =
        acc.filter (fun s => decide (screeningScore s = c)) ++
          l.filter (fun s => decide (screeningScore s = c)) := by
    intro l
    induction l with
    | nil => intro acc hacc; simp
    | cons x xs ih =>
      intro acc hacc
      rw [List.foldl_cons, ih _ (pairwise_insertByScoreDesc hacc),
        filter_insertByScoreDesc c hacc, List.filter_cons]
      by_cases hxc : screeningScore x = c
      · rw [if_pos hxc, if_pos (show decide (screeningScore x = c) = true by
            simpa using hxc), List.append_assoc]
        rfl
      · rw [if_neg hxc, if_neg (show ¬decide (screeningScore x = c) = true by
            simpa using hxc), List.append_nil]
  simpa using key l [] (by simp)

/-! ### Lemmas about per-stock screening and the orchestrator -/

/-- The screening predicate of `processStock`, spelled out on a stock's
fields. -/
def screensTrue (st : StockWithScreening) : Prop :=
  ∃ ph, st.price_history = some ph ∧ 200 ≤ ph.length ∧
    meetsScreeningCriteria (st.current_price.getD 0)
      ((calculateSMA (ph.map (·.close)) 50).getLast?)
      ((calculateSMA (ph.map (·.close)) 100).getLast?)
      ((calculateSMA (ph.map (·.close)) 200).getLast?) = true

theorem processStock_of_screensTrue {st : StockWithScreening}
    (h : screensTrue st) :
    ∃ ph, st.price_history = some ph ∧
      processStock st = some { st with screening_result := some (screeningResultFor st ph) } := by
  obtain ⟨ph, hph, h1, h2⟩ := h
  refine ⟨ph, hph, ?_⟩
  simp only [processStock, hph]
  rw [if_pos h1, if_pos h2]

theorem processStock_eq_some_iff {st : StockWithScreening} :
    (∃ s, processStock st = some s) ↔ screensTrue st := by
  constructor
  · rintro ⟨s, hs⟩
    simp only [processStock] at hs
    cases hph : st.price_history with
    | none => rw [hph] at hs; simp at hs
    | some ph =>
      rw [hph] at hs
      dsimp only at hs
      by_cases h1 : 200 ≤ ph.length
      · rw [if_pos h1] at hs
        by_cases h2 : meetsScreeningCriteria (st.current_price.getD 0)
            ((calculateSMA (ph.map (·.close)) 50).getLast?)
            ((calculateSMA (ph.map (·.close)) 100).getLast?)
            ((calculateSMA (ph.map (·.close)) 200).getLast?) = true
        · exact ⟨ph, hph, h1, h2⟩
        · rw [if_neg h2] at hs; cases hs
      · rw [if_neg h1] at hs; cases hs
  · intro h
    obtain ⟨ph, _, hps⟩ := processStock_of_screensTrue h
    exact ⟨_, hps⟩

theorem processStock_eq_none_iff {st : StockWithScreening} :
    processStock st = none ↔ ¬ screensTrue st := by
  rw [← processStock_eq_some_iff]
  cases h : processStock st <;> simp

theorem processStock_some_spec {st s : StockWithScreening}
    (h : processStock st = some s) :
    s.toStock = st.toStock ∧ s.fundamentals = st.fundamentals ∧
    s.price_history = st.price_history ∧
    s.screening_result.isSome = true ∧ screensTrue st ∧ screensTrue s := by
  have hst : screensTrue st := processStock_eq_some_iff.1 ⟨s, h⟩
  obtain ⟨ph, hph, hps⟩ := processStock_of_screensTrue hst
  rw [hps] at h
  have hs := Option.some.inj h
  obtain ⟨ph', hph', h1, h2⟩ := hst
  subst hs
  exact ⟨rfl, rfl, rfl, rfl, ⟨ph', hph', h1, h2⟩, ⟨ph', hph', h1, h2⟩⟩

theorem processOutcome_eq_some {r : Except String StockWithScreening}
    {s : StockWithScreening} :
    processOutcome r = some s ↔ ∃ st, r = .ok st ∧ processStock st = some s := by
  cases r <;> simp [processOutcome]

theorem mem_stocksOf {gw : Gateway} {s : StockWithScreening} :
    s ∈ stocksOf gw ↔
      ∃ sym ∈ symbols.take 10, ∃ st,
        getStockDetails gw sym = .ok st ∧ processStock st = some s := by
  unfold stocksOf
  rw [List.filterMap_map]
  simp only [List.mem_filterMap, Function.comp_apply, processOutcome_eq_some]

theorem mem_screenStocksList {gw : Gateway} {s : StockWithScreening} :
    s ∈ screenStocksList gw ↔
      ∃ sym ∈ symbols.take 10, ∃ st,
        getStockDetails gw sym = .ok st ∧ processStock st = some s := by
  rw [← mem_stocksOf]
  exact (sortByScoreDesc_perm (stocksOf gw)).mem_iff

theorem filterMap_congr_of_agree {α β : Type} {f g : α → Option β} :
    ∀ {l : List α}, (∀ a ∈ l, f a = g a) → l.filterMap f = l.filterMap g := by
  intro l
  induction l with
  | nil => intro _; rfl
  | cons x xs ih =>
    intro h
    rw [List.filterMap_cons, List.filterMap_cons, h x (by simp),
      ih (fun a ha => h a (by simp [ha]))]

/-! ### Claim theorems (continued) -/

/-- C1: a screened stock passes iff its current price, the last SMA50
value and the last SMA100 value each strictly exceed the last SMA200
value — every stock in the ranked output satisfies the three comparisons
on its own price history, and conversely every successfully aggregated
stock with ≥ 200 bars that satisfies them appears in the output; at the
claim's concrete values (price 150, SMA50 145, SMA100 142, SMA200 140)
the rule passes, and with SMA50 = 135 it fails. -/
theorem c1_pass_rule :
    (∀ (gw : Gateway) (s : StockWithScreening), s ∈ screenStocksList gw →
      ∃ ph, s.price_history = some ph ∧ 200 ≤ ph.length ∧
        meetsScreeningCriteria (s.current_price.getD 0)
          ((calculateSMA (ph.map (·.close)) 50).getLast?)
          ((calculateSMA (ph.map (·.close)) 100).getLast?)
          ((calculateSMA (ph.map (·.close)) 200).getLast?) = true) ∧
    (∀ (gw : Gateway) (sym : String) (st s : StockWithScreening),
      sym ∈ symbols.take 10 → getStockDetails gw sym = .ok st →
      processStock st = some s → s ∈ screenStocksList gw) ∧
    meetsScreeningCriteria 150 (some 145) (some 142) (some 140) = true ∧
    meetsScreeningCriteria 150 (some 135) (some 142) (some 140) = false := by
  refine ⟨?_, ?_, by with_unfolding_all rfl, by with_unfolding_all rfl⟩
  · intro gw s hs
    obtain ⟨sym, _, st, _, hp⟩ := mem_screenStocksList.1 hs
    obtain ⟨-, -, -, -, -, hscr⟩ := processStock_some_spec hp
    exact hscr
  · intro gw sym st s hsym hdet hp
    exact mem_screenStocksList.2 ⟨sym, hsym, st, hdet, hp⟩

/-- C1 witness: on the concrete gateway `gw8`, symbol `MSFT` aggregates
to `stock30`, which passes and lands in the ranked output; the soundness
direction is then applied to that output element. -/
theorem c1_pass_rule_witness :
    processedStock30 ∈ screenStocksList gw8 ∧
    ∃ ph, processedStock30.price_history = some ph ∧ 200 ≤ ph.length ∧
      meetsScreeningCriteria (processedStock30.current_price.getD 0)
        ((calculateSMA (ph.map (·.close)) 50).getLast?)
        ((calculateSMA (ph.map (·.close)) 100).getLast?)
        ((calculateSMA (ph.map (·.close)) 200).getLast?) = true := by
  have hmem : processedStock30 ∈ screenStocksList gw8 :=
    c1_pass_rule.2.1 gw8 "MSFT" stock30 processedStock30
      (by decide)
      (by with_unfolding_all rfl)
      (by with_unfolding_all rfl)
  exact ⟨hmem, c1_pass_rule.1 gw8 processedStock30 hmem⟩

/-- C6 (amended): a `ScreeningResult` is attached exactly when the stock
has a present price history of length ≥ 200 **and** meets the three
screening criteria (`screensTrue`); a processed stock always carries a
result and a ≥ 200-bar history, a non-passing stock is dropped with no
result, and the aggregator `getStockDetails` itself never attaches one. -/
theorem c6_attach_conditions :
    (∀ (st s : StockWithScreening), processStock st = some s →
      s.screening_result.isSome = true ∧
      ∃ ph, s.price_history = some ph ∧ 200 ≤ ph.length) ∧
    (∀ st : StockWithScreening, (∃ s, processStock st = some s) ↔ screensTrue st) ∧
    (∀ st : StockWithScreening, ¬ screensTrue st → processStock st = none) ∧
    (∀ (gw : Gateway) (sym : String) (st : StockWithScreening),
      getStockDetails gw sym = .ok st → st.screening_result = none) := by
  refine ⟨?_, fun _ => processStock_eq_some_iff, ?_, ?_⟩
  · intro st s h
    obtain ⟨-, -, hph, hsr, -, ⟨ph, hph', hlen, -⟩⟩ := processStock_some_spec h
    exact ⟨hsr, ph, hph', hlen⟩
  · intro st h
    exact processStock_eq_none_iff.2 h
  · intro gw sym st h
    unfold getStockDetails at h
    cases hq : gw.quote sym with
    | ok q =>
      rw [hq] at h
      cases Except.ok.inj h
      rfl
    | error e => rw [hq] at h; cases h

/-- C6 witness: `processStock stock30 = some processedStock30` instantiates
the first conjunct. -/
theorem c6_attach_conditions_witness :
    processedStock30.screening_result.isSome = true ∧
    ∃ ph, processedStock30.price_history = some ph ∧ 200 ≤ ph.length :=
  c6_attach_conditions.1 stock30 processedStock30 (by with_unfolding_all rfl)

/-- C6 counterexample: `flatStock` aggregates successfully with a 200-bar
history, yet no `ScreeningResult` is ever attached (the strict
comparisons fail on a flat series), and it is absent from the ranked
output — refuting "attached iff history present with length ≥ 200". -/
theorem c6_counterexample :
    flatStock.price_history = some flatHist ∧
    flatHist.length = 200 ∧
    getStockDetails gwFlat "AAPL" = .ok flatStock ∧
    processStock flatStock = none ∧
    screenStocksList gwFlat = [] := by
  refine ⟨rfl, by with_unfolding_all rfl, by with_unfolding_all rfl,
    by with_unfolding_all rfl, by with_unfolding_all rfl⟩

/-- C7 (amended): batch screening never surfaces a failure: every
invocation returns the success result with the ranked list; each ranked
element comes from a symbol whose own aggregation succeeded (failed
symbols are silently excluded); and replacing one failing symbol's
failure by any other failure leaves every other symbol's result — and the
whole output — unchanged.  (The original claim's "explicit failure result
when every symbol failed" is refuted by `c7_counterexample`.) -/
theorem c7_batch_isolation :
    (∀ gw : Gateway, ∃ l, screenStocks gw = .ok l) ∧
    (∀ (gw : Gateway) (s : StockWithScreening), s ∈ screenStocksList gw →
      ∃ sym ∈ symbols.take 10, ∃ st,
        getStockDetails gw sym = .ok st ∧ processStock st = some s) ∧
    (∀ (gw1 gw2 : Gateway) (bad : String),
      (∀ sym, sym ≠ bad → gw1.quote sym = gw2.quote sym ∧
        gw1.fundamentals sym = gw2.fundamentals sym ∧
        gw1.timeSeries sym = gw2.timeSeries sym) →
      (∃ e, gw1.quote bad = .error e) → (∃ e, gw2.quote bad = .error e) →
      screenStocksList gw1 = screenStocksList gw2) := by
  refine ⟨fun gw => ⟨screenStocksList gw, rfl⟩,
    fun gw s hs => mem_screenStocksList.1 hs, ?_⟩
  intro gw1 gw2 bad hagree ⟨e1, he1⟩ ⟨e2, he2⟩
  unfold screenStocksList
  congr 1
  unfold stocksOf
  rw [List.filterMap_map, List.filterMap_map]
  apply filterMap_congr_of_agree
  intro sym _
  by_cases hbad : sym = bad
  · subst hbad
    simp only [Function.comp_apply, getStockDetails, he1, he2, processOutcome]
  · obtain ⟨hq, hf, ht⟩ := hagree sym hbad
    simp only [Function.comp_apply, getStockDetails, hq, hf, ht]

/-- C7 witness: the isolation part applied with `GOOGL` failing with
"timeout" in `gw8b` and "down" in `gw8`. -/
theorem c7_batch_isolation_witness :
    screenStocksList gw8b = screenStocksList gw8 := by
  refine c7_batch_isolation.2.2 gw8b gw8 "GOOGL" ?_ ⟨"timeout", rfl⟩
    ⟨"down", by with_unfolding_all rfl⟩
  intro sym hsym
  refine ⟨?_, rfl, rfl⟩
  show (if sym = "GOOGL" then .error "timeout" else gw8.quote sym) = gw8.quote sym
  rw [if_neg hsym]

/-- C7 counterexample: when every symbol's aggregation fails, the caller
receives the *success* response carrying an empty list, not an explicit
failure result — refuting the claim's all-failed clause. -/
theorem c7_counterexample :
    screenStocks gwAllFail = .ok ([] : List StockWithScreening) := by
  with_unfolding_all rfl

/-- C8: the ranked list is sorted by composite score descending
(adjacent-pairwise `≥`), is a permutation of the aggregated passing
stocks (and, the orchestrator being a function of the per-symbol
outcomes delivered in universe order by `Promise.allSettled`, is
deterministic), equal scores keep their pre-sort (universe) order, and
on a universe where exactly two symbols pass with scores 30.0 (`MSFT`)
and 12.5 (`AAPL`) the output is `[MSFT, AAPL]`. -/
theorem c8_ranked_descending :
    (∀ gw : Gateway, (screenStocksList gw).Pairwise
      (fun a b => screeningScore b ≤ screeningScore a)) ∧
    (∀ gw : Gateway, (screenStocksList gw).Perm (stocksOf gw)) ∧
    (∀ (gw : Gateway) (c : ℚ),
      (screenStocksList gw).filter (fun s => decide (screeningScore s = c)) =
        (stocksOf gw).filter (fun s => decide (screeningScore s = c))) ∧
    (screenStocksList gw8).map (fun s => (s.symbol, screeningScore s)) =
      [("MSFT", 30), ("AAPL", 25/2)] := by
  exact ⟨fun gw => sortByScoreDesc_sorted (stocksOf gw),
    fun gw => sortByScoreDesc_perm (stocksOf gw),
    fun gw c => filter_sortByScoreDesc c (stocksOf gw),
    by with_unfolding_all rfl⟩

/-- C10: `screenStocks` takes no universe argument (it is a function of
the gateway only); its hard-coded list has 26 symbols from `AAPL` to
`PYPL`, exactly the first 10 are screened, the other 16 (e.g. `ORCL`) are
never aggregated: the result depends only on the gateway's behaviour on
the first 10 symbols. -/
theorem c10_fixed_universe :
    symbols.length = 26 ∧
    symbols.take 10 =
      ["AAPL", "MSFT", "GOOGL", "AMZN", "TSLA",
       "META", "NVDA", "NFLX", "CRM", "ADBE"] ∧
    (symbols.drop 10).length = 16 ∧
    symbols.getLast? = some "PYPL" ∧
    "ORCL" ∉ symbols.take 10 ∧
    (∀ gw1 gw2 : Gateway,
      (∀ sym ∈ symbols.take 10, gw1.quote sym = gw2.quote sym ∧
        gw1.fundamentals sym = gw2.fundamentals sym ∧
        gw1.timeSeries sym = gw2.timeSeries sym) →
      screenStocks gw1 = screenStocks gw2) := by
  refine ⟨by decide, by decide, by decide, by decide, by decide, ?_⟩
  intro gw1 gw2 h
  unfold screenStocks screenStocksList
  congr 1
  congr 1
  unfold stocksOf
  rw [List.filterMap_map, List.filterMap_map]
  apply filterMap_congr_of_agree
  intro sym hsym
  obtain ⟨hq, hf, ht⟩ := h sym hsym
  simp only [Function.comp_apply, getStockDetails, hq, hf, ht]

/-- C10 witness: changing the outcome of `JPM` (the 17th symbol) does not
change the screening result. -/
theorem c10_fixed_universe_witness :
    screenStocks gw8jpm = screenStocks gw8 := by
  refine c10_fixed_universe.2.2.2.2.2 gw8jpm gw8 ?_
  intro sym hsym
  have hne : sym ≠ "JPM" := by
    intro hEq
    subst hEq
    revert hsym
    decide
  refine ⟨?_, rfl, rfl⟩
  show (if sym = "JPM" then .ok quote30 else gw8.quote sym) = gw8.quote sym
  rw [if_neg hne]

/-- C4 (refuting theorem): `screenStocks` computes its SMAs on the price
series exactly as received — a rising stock whose 200 bars arrive
most-recent-first (`descHist`) is rejected (its "last" SMA windows cover
the oldest bars), while the same stock with the history reversed to
chronologically ascending order passes; so the batch path performs no
reversal before SMA computation.  `getChartData`, by contrast, does
reverse: its returned `prices`/`dates` are the reversed (ascending)
series and its SMA overlays are computed on the reversed prices. -/
theorem c4_ordering :
    processStock descStock = none ∧
    (processStock ascStock).isSome = true ∧
    screenStocksList gwDesc = [] ∧
    (getChartData (.ok descHist)).toOption.map ChartData.prices =
      some ((descHist.map (·.close)).reverse) ∧
    (getChartData (.ok descHist)).toOption.map ChartData.dates =
      some ((descHist.map (·.date)).reverse) ∧
    (getChartData (.ok descHist)).toOption.map ChartData.sma50 =
      some (calculateSMA ((descHist.map (·.close)).reverse) 50) := by
  refine ⟨by with_unfolding_all rfl, by with_unfolding_all rfl,
    by with_unfolding_all rfl, rfl, rfl, rfl⟩

/-- C3: `calculateScore` returns exactly the sum of the spec's
conditionally applied terms (`specScore`, written from the spec's words),
the result is never negative, and an `EnrichedStock` with every optional
field absent scores exactly 0. -/
theorem c3_score_spec :
    (∀ st : StockWithScreening, calculateScore st = specScore st) ∧
    (∀ st : StockWithScreening, 0 ≤ calculateScore st) ∧
    calculateScore emptyStock = 0 := by
  have hnonneg : ∀ st : StockWithScreening, 0 ≤ specScore st := by
    intro st
    unfold specScore
    have n1 : (0:ℚ) ≤ (match st.price_change_percent with
        | some pcp => if 0 < pcp then pcp * (2/10) else 0
        | none => 0) := by
      cases st.price_change_percent with
      | none => norm_num
      | some x =>
        dsimp only
        split_ifs with h
        · exact mul_nonneg h.le (by norm_num)
        · norm_num
    have n2 : (0:ℚ) ≤ (match st.volume with
        | some v => if 1000000 < v then (10:ℚ) else 0
        | none => 0) := by
      cases st.volume with
      | none => norm_num
      | some x => dsimp only; split_ifs <;> norm_num
    have n3 : (0:ℚ) ≤ (match st.fundamentals.bind (·.pe_ratio) with
        | some pe => if 0 < pe ∧ pe < 25 then (25 - pe) * 2 else 0
        | none => 0) := by
      cases st.fundamentals.bind (·.pe_ratio) with
      | none => norm_num
      | some x =>
        dsimp only
        split_ifs with h
        · exact mul_nonneg (by linarith [h.2]) (by norm_num)
        · norm_num
    have n4 : (0:ℚ) ≤ (match st.fundamentals.bind (·.quarterly_revenue_growth) with
        | some g => if 0 < g then g * (3/10) else 0
        | none => 0) := by
      cases st.fundamentals.bind (·.quarterly_revenue_growth) with
      | none => norm_num
      | some x =>
        dsimp only
        split_ifs with h
        · exact mul_nonneg h.le (by norm_num)
        · norm_num
    have n5 : (0:ℚ) ≤ (match st.fundamentals.bind (·.quarterly_eps_growth) with
        | some g => if 0 < g then g * (3/10) else 0
        | none => 0) := by
      cases st.fundamentals.bind (·.quarterly_eps_growth) with
      | none => norm_num
      | some x =>
        dsimp only
        split_ifs with h
        · exact mul_nonneg h.le (by norm_num)
        · norm_num
    have n6 : (0:ℚ) ≤ (match st.fundamentals.bind (·.market_cap) with
        | some mc => if 10000000000 < mc then (20:ℚ)
            else if 2000000000 < mc then 10 else 0
        | none => 0) := by
      cases st.fundamentals.bind (·.market_cap) with
      | none => norm_num
      | some x => dsimp only; split_ifs <;> norm_num
    exact add_nonneg (add_nonneg (add_nonneg (add_nonneg (add_nonneg n1 n2) n3) n4) n5) n6
  have heq : ∀ st : StockWithScreening, calculateScore st = specScore st := by
    intro st
    have h1 : (match st.price_change_percent with
        | some pcp => if pcp ≠ 0 ∧ 0 < pcp then pcp * (2/10) else 0
        | none => 0) = (match st.price_change_percent with
        | some pcp => if 0 < pcp then pcp * (2/10) else 0
        | none => 0) := by
      cases st.price_change_percent with
      | none => rfl
      | some x =>
        dsimp only
        by_cases h : 0 < x
        · rw [if_pos ⟨ne_of_gt h, h⟩, if_pos h]
        · rw [if_neg (fun hc => h hc.2), if_neg h]
    have h2 : (match st.volume with
        | some v => if v ≠ 0 ∧ 1000000 < v then (10:ℚ) else 0
        | none => 0) = (match st.volume with
        | some v => if 1000000 < v then (10:ℚ) else 0
        | none => 0) := by
      cases st.volume with
      | none => rfl
      | some x =>
        dsimp only
        by_cases h : 1000000 < x
        · rw [if_pos ⟨by linarith, h⟩, if_pos h]
        · rw [if_neg (fun hc => h hc.2), if_neg h]
    have h3 : (match st.fundamentals.bind (·.pe_ratio) with
        | some pe => if pe ≠ 0 then
            (if 0 < pe ∧ pe < 25 then (25 - pe) * 2 else 0) else 0
        | none => 0) = (match st.fundamentals.bind (·.pe_ratio) with
        | some pe => if 0 < pe ∧ pe < 25 then (25 - pe) * 2 else 0
        | none => 0) := by
      cases st.fundamentals.bind (·.pe_ratio) with
      | none => rfl
      | some x =>
        dsimp only
        by_cases h : x = 0
        · subst h
          rw [if_neg (by norm_num), if_neg (by norm_num)]
        · rw [if_pos h]
    have h4 : (match st.fundamentals.bind (·.quarterly_revenue_growth) with
        | some g => if g ≠ 0 ∧ 0 < g then g * (3/10) else 0
        | none => 0) = (match st.fundamentals.bind (·.quarterly_revenue_growth) with
        | some g => if 0 < g then g * (3/10) else 0
        | none => 0) := by
      cases st.fundamentals.bind (·.quarterly_revenue_growth) with
      | none => rfl
      | some x =>
        dsimp only
        by_cases h : 0 < x
        · rw [if_pos ⟨ne_of_gt h, h⟩, if_pos h]
        · rw [if_neg (fun hc => h hc.2), if_neg h]
    have h5 : (match st.fundamentals.bind (·.quarterly_eps_growth) with
        | some g => if g ≠ 0 ∧ 0 < g then g * (3/10) else 0
        | none => 0) = (match st.fundamentals.bind (·.quarterly_eps_growth) with
        | some g => if 0 < g then g * (3/10) else 0
        | none => 0) := by
      cases st.fundamentals.bind (·.quarterly_eps_growth) with
      | none => rfl
      | some x =>
        dsimp only
        by_cases h : 0 < x
        · rw [if_pos ⟨ne_of_gt h, h⟩, if_pos h]
        · rw [if_neg (fun hc => h hc.2), if_neg h]
    have h6 : (match st.fundamentals.bind (·.market_cap) with
        | some mc => if mc ≠ 0 then
            (if 10000000000 < mc then (20:ℚ)
             else if 2000000000 < mc then 10 else 0) else 0
        | none => 0) = (match st.fundamentals.bind (·.market_cap) with
        | some mc => if 10000000000 < mc then (20:ℚ)
            else if 2000000000 < mc then 10 else 0
        | none => 0) := by
      cases st.fundamentals.bind (·.market_cap) with
      | none => rfl
      | some x =>
        dsimp only
        by_cases h : x = 0
        · subst h
          rw [if_neg (by norm_num), if_neg (by norm_num), if_neg (by norm_num)]
        · rw [if_pos h]
    simp only [calculateScore]
    rw [h1, h2, h3, h4, h5, h6, zero_add]
    exact max_eq_right (by simpa [specScore] using hnonneg st)
  refine ⟨heq, fun st => ?_, by with_unfolding_all rfl⟩
  rw [heq st]
  exact hnonneg st

end StockScreener
